import Mathlib

/-!
Verification development for the shmuel.tech deployment scripts
(`scripts/namecheap_dns.py`, `scripts/deploy.py`, `scripts/detect_changes.py`,
`scripts/sync_secrets.py`), as a shallow embedding in Lean 4.

External effects (HTTP calls, subprocesses, the filesystem, git, threads)
are passed in as explicit parameters: a function modelling a stateful loop
takes the sequence of observed command results as an argument, and a
function reading the filesystem takes the directory listing as a list.
Python strings are Lean `String`s, Python dicts keyed by strings are
insertion-ordered association lists, Python sets are lists considered up to
membership (the scripts only ever sort them before use).
-/

/-- A single character: the ASCII apostrophe (39).  Kept as a named
constant so that quoted output strings can be built without character
literals scattered through messages. -/
def squote : Char := Char.ofNat 39

/-- One-character string holding the apostrophe. -/
def squoteStr : String := String.mk [squote]

/-! ## DNS data model (`scripts/namecheap_dns.py`)

A Namecheap host record, as handled by `prepare_dns_changes_for_services`.
The Python code stores records as dicts with keys `Name`, `Type`,
`Address`, `TTL`, `MXPref`; the field `rtype` embeds the `Type` key
(`Type` is a keyword-like identifier in Lean). -/
structure DnsRecord where
  name : String
  rtype : String
  address : String
  ttl : String
  mxpref : String
deriving DecidableEq, Repr

/-- A `{service_name, app_name}` pair as built by `_deploy_services_parallel`
in `scripts/deploy.py` and consumed by `prepare_dns_changes_for_services`. -/
structure ServiceConfig where
  service_name : String
  app_name : String
deriving DecidableEq, Repr

/-- Function `get_fly_app_cname` (namecheap_dns.py lines 138-144): the CNAME target
for a Fly.io app is always `<app_name>.fly.dev.` (trailing dot included);
the function never returns `None`. -/
def get_fly_app_cname (app_name : String) : String :=
  app_name ++ ".fly.dev."

/-- The hostname pair computed in `prepare_dns_changes_for_services`
(lines 176-181): `("@", "www")` for the `main-site` service,
`(x, "www." ++ x)` for any other service name `x`. -/
def hostnamesFor (service_name : String) : String × String :=
  if service_name = "main-site" then ("@", "www")
  else (service_name, "www." ++ service_name)

/-- The fresh record appended when a desired hostname has no existing
CNAME record (lines 206-212 and 232-238 of namecheap_dns.py): fixed
TTL `1800` and MXPref `10`. -/
def newCnameRecord (host target : String) : DnsRecord :=
  ⟨host, "CNAME", target, "1800", "10"⟩

/-- One pass of the `for record in updated_records` loops in
`prepare_dns_changes_for_services` (lines 191-214 / 217-240): find the
first record whose `Name` equals the desired hostname and whose `Type` is
`CNAME`; rewrite its address if it differs (flag `true`), leave it if it
already matches (flag `false`); if no record matches, append a fresh
record at the end (flag `true`).  Records beyond the first match are
untouched. -/
def applyHost (host target : String) : List DnsRecord → List DnsRecord × Bool
  | [] => ([newCnameRecord host target], true)
  | r :: rest =>
    if r.name = host ∧ r.rtype = "CNAME" then
      if r.address = target then (r :: rest, false)
      else ({ r with address := target } :: rest, true)
    else
      let p := applyHost host target rest
      (r :: p.1, p.2)

/-- The per-service body of the loop in `prepare_dns_changes_for_services`:
apply the main hostname, then the `www` hostname, both pointing at
`get_fly_app_cname app_name`; the changed flag is the disjunction of the
two steps.  (The `if not cname_target: continue` branch in the source is
dead, since `get_fly_app_cname` always returns a string.) -/
def applyConfig (rs : List DnsRecord) (c : ServiceConfig) : List DnsRecord × Bool :=
  let target := get_fly_app_cname c.app_name
  let hp := hostnamesFor c.service_name
  let p1 := applyHost hp.1 target rs
  let p2 := applyHost hp.2 target p1.1
  (p2.1, p1.2 || p2.2)

/-- The `for config in service_configs` loop, threading the record list and
the accumulated `changes_made` flag. -/
def processConfigs : List ServiceConfig → List DnsRecord → Bool → List DnsRecord × Bool
  | [], rs, changed => (rs, changed)
  | c :: cs, rs, changed =>
    let p := applyConfig rs c
    processConfigs cs p.1 (changed || p.2)

/-- Function `prepare_dns_changes_for_services` (namecheap_dns.py lines 146-250),
with the fetched current records passed as a parameter: run every service
config over the current record list; if no change was flagged, return the
original records with `false`, otherwise the updated records with `true`. -/
def prepare_dns_changes_for_services
    (service_configs : List ServiceConfig) (current_records : List DnsRecord) :
    List DnsRecord × Bool :=
  let st := processConfigs service_configs current_records false
  if st.2 then (st.1, true) else (current_records, false)

/-- Function `bulk_update_dns_for_services` (lines 252-288) calls the bulk applier
`update_namecheap_dns_records` exactly when the planner reports
`changes_made = true`; this flag models whether the applier is invoked. -/
def bulkUpdateApplies
    (service_configs : List ServiceConfig) (current_records : List DnsRecord) : Bool :=
  (prepare_dns_changes_for_services service_configs current_records).2

/-- The address of the first CNAME record with the given name, if any:
the record that the linear scans of the planner latch onto. -/
def firstCnameAddr (host : String) (rs : List DnsRecord) : Option String :=
  (rs.find? (fun r => r.name = host && r.rtype = "CNAME")).map (fun r => r.address)

/-- The two hostnames a service config occupies. -/
def hostsOf (c : ServiceConfig) : List String :=
  [(hostnamesFor c.service_name).1, (hostnamesFor c.service_name).2]

/-- The CNAME target a service config points its hostnames at. -/
def targetOf (c : ServiceConfig) : String :=
  get_fly_app_cname c.app_name

/-- Every hostname occupied by some config of the list (the whole
footprint of the planner on the record set). -/
def plannedHosts (S : List ServiceConfig) : List String :=
  S.foldr (fun c acc => (hostnamesFor c.service_name).1 :: (hostnamesFor c.service_name).2 :: acc) []

/-- A record is touched by the planner for `S` only if it is a CNAME
record whose name is one of the planned hostnames. -/
def relatedTo (S : List ServiceConfig) (r : DnsRecord) : Bool :=
  decide (r.rtype = "CNAME" ∧ r.name ∈ plannedHosts S)

/-- Coherence of a config list: no two configs plan a common hostname with
different CNAME targets. -/
def coherentConfigs (S : List ServiceConfig) : Bool :=
  S.all (fun c => S.all (fun c₂ =>
    (hostsOf c).all (fun h =>
      !(decide (h ∈ hostsOf c₂)) || (targetOf c == targetOf c₂))))

/-- Propositional form of `coherentConfigs`. -/
def Coherent (S : List ServiceConfig) : Prop :=
  ∀ c ∈ S, ∀ c₂ ∈ S, ∀ h, h ∈ hostsOf c → h ∈ hostsOf c₂ → targetOf c = targetOf c₂

/-! ### Frame lemmas: the planner never touches unrelated records -/

lemma relatedTo_newCnameRecord {S : List ServiceConfig} {h : String} (t : String)
    (hh : h ∈ plannedHosts S) : relatedTo S (newCnameRecord h t) = true := by
  simp [relatedTo, newCnameRecord, hh]

lemma applyHost_filter (S : List ServiceConfig) (h t : String) (rs : List DnsRecord)
    (hh : h ∈ plannedHosts S) :
    ((applyHost h t rs).1.filter (fun r => !(relatedTo S r))) =
      rs.filter (fun r => !(relatedTo S r)) := by
  induction rs with
  | nil =>
    simp [applyHost, List.filter, relatedTo_newCnameRecord t hh]
  | cons r rest ih =>
    by_cases hm : r.name = h ∧ r.rtype = "CNAME"
    · have hr : relatedTo S r = true := by
        simp [relatedTo, hm.2, hm.1, hh]
      by_cases ha : r.address = t
      · simp [applyHost, hm, ha, List.filter, hr]
      · have hr' : relatedTo S ⟨h, "CNAME", t, r.ttl, r.mxpref⟩ = true := by
          simp [relatedTo, hh]
        simp [applyHost, hm, ha, List.filter, hr, hr']
    · by_cases hr : relatedTo S r = true
      · simp [applyHost, hm, List.filter, hr, ih]
      · simp only [Bool.not_eq_true] at hr
        simp [applyHost, hm, List.filter, hr, ih]

lemma hostsOf_mem_plannedHosts {S : List ServiceConfig} {c : ServiceConfig}
    (hc : c ∈ S) : ∀ h ∈ hostsOf c, h ∈ plannedHosts S := by
  intro h hmem
  induction S with
  | nil => cases hc
  | cons c₀ cs ih =>
    rcases List.mem_cons.mp hc with rfl | hc'
    · simp only [hostsOf, List.mem_cons, List.mem_singleton] at hmem
      rcases hmem with rfl | rfl | hfalse
      · simp [plannedHosts]
      · simp [plannedHosts]
      · cases hfalse
    · have := ih hc'
      simp [plannedHosts] at this ⊢
      tauto

lemma applyConfig_filter (S : List ServiceConfig) (c : ServiceConfig)
    (rs : List DnsRecord) (hc : c ∈ S) :
    ((applyConfig rs c).1.filter (fun r => !(relatedTo S r))) =
      rs.filter (fun r => !(relatedTo S r)) := by
  have h1 : (hostnamesFor c.service_name).1 ∈ plannedHosts S :=
    hostsOf_mem_plannedHosts hc _ (by simp [hostsOf])
  have h2 : (hostnamesFor c.service_name).2 ∈ plannedHosts S :=
    hostsOf_mem_plannedHosts hc _ (by simp [hostsOf])
  simp only [applyConfig]
  rw [applyHost_filter S _ _ _ h2, applyHost_filter S _ _ _ h1]

lemma processConfigs_filter (S : List ServiceConfig) :
    ∀ (cs : List ServiceConfig) (rs : List DnsRecord) (b : Bool),
    (∀ c ∈ cs, c ∈ S) →
    ((processConfigs cs rs b).1.filter (fun r => !(relatedTo S r))) =
      rs.filter (fun r => !(relatedTo S r)) := by
  intro cs
  induction cs with
  | nil => intro rs b _; simp [processConfigs]
  | cons c cs ih =>
    intro rs b hsub
    simp only [processConfigs]
    rw [ih _ _ (fun c' hc' => hsub c' (List.mem_cons_of_mem _ hc')),
      applyConfig_filter S c rs (hsub c (List.mem_cons_self _ _))]

/-- C1: for every list of current DNS records and every list of service
configs `S`, the record set returned by `prepare_dns_changes_for_services`
agrees with the input record set on all unrelated records: restricting
both to the records that are not CNAME records named by one of the planned
hostnames of `S` yields the same list, element for element (same name,
type, address, TTL and MX preference, in the same order and multiplicity).
In particular the planner never deletes or mutates an unrelated record
(mail records, TXT records, entries of other services). -/
theorem prepare_dns_frame (S : List ServiceConfig) (R : List DnsRecord) :
    ((prepare_dns_changes_for_services S R).1.filter (fun r => !(relatedTo S r))) =
      R.filter (fun r => !(relatedTo S r)) := by
  simp only [prepare_dns_changes_for_services]
  by_cases hc : (processConfigs S R false).2 = true
  · simp only [hc, if_pos]
    exact processConfigs_filter S S R false (fun c hcmem => hcmem)
  · simp only [Bool.not_eq_true] at hc
    simp [hc]

/-! ### Idempotence lemmas for the DNS planner -/

lemma firstCnameAddr_cons (h : String) (r : DnsRecord) (rs : List DnsRecord) :
    firstCnameAddr h (r :: rs) =
      if r.name = h ∧ r.rtype = "CNAME" then some r.address else firstCnameAddr h rs := by
  by_cases hm : r.name = h ∧ r.rtype = "CNAME"
  · have hb : (r.name = h && r.rtype = "CNAME") = true := by simp [hm.1, hm.2]
    simp [firstCnameAddr, List.find?_cons_of_pos _ hb, hm]
  · have hb : ¬((r.name = h && r.rtype = "CNAME") = true) := by
      rcases not_and_or.mp hm with hx | hx <;> simp [hx]
    simp [firstCnameAddr, List.find?_cons_of_neg _ hb, hm]

lemma applyHost_cons (h t : String) (r : DnsRecord) (rest : List DnsRecord) :
    applyHost h t (r :: rest) =
      if r.name = h ∧ r.rtype = "CNAME" then
        (if r.address = t then (r :: rest, false)
         else ({ r with address := t } :: rest, true))
      else ((r :: (applyHost h t rest).1), (applyHost h t rest).2) := rfl

lemma firstCnameAddr_applyHost (h h' t : String) (rs : List DnsRecord) :
    firstCnameAddr h' (applyHost h t rs).1 =
      if h' = h then some t else firstCnameAddr h' rs := by
  induction rs with
  | nil =>
    have : (applyHost h t []).1 = [newCnameRecord h t] := rfl
    rw [this, firstCnameAddr_cons]
    by_cases he : h' = h
    · rw [if_pos he, if_pos (show (newCnameRecord h t).name = h' ∧
        (newCnameRecord h t).rtype = "CNAME" from ⟨he.symm, rfl⟩)]
      rfl
    · rw [if_neg he, if_neg (show ¬((newCnameRecord h t).name = h' ∧
        (newCnameRecord h t).rtype = "CNAME") from fun hx => he hx.1.symm)]
  | cons r rest ih =>
    rw [applyHost_cons]
    by_cases hm : r.name = h ∧ r.rtype = "CNAME"
    · rw [if_pos hm]
      by_cases ha : r.address = t
      · rw [if_pos ha]
        by_cases he : h' = h
        · rw [if_pos he, firstCnameAddr_cons,
            if_pos (⟨hm.1.trans he.symm, hm.2⟩ : r.name = h' ∧ r.rtype = "CNAME"), ha]
        · rw [if_neg he]
      · rw [if_neg ha]
        by_cases he : h' = h
        · rw [if_pos he]
          simp only [firstCnameAddr_cons]
          rw [if_pos (by exact ⟨hm.1.trans he.symm, hm.2⟩)]
        · rw [if_neg he]
          have hcond : ¬(r.name = h' ∧ r.rtype = "CNAME") := by
            intro hx
            exact he (hx.1.symm.trans hm.1)
          simp only [firstCnameAddr_cons]
          rw [if_neg (by exact hcond), if_neg hcond]
    · rw [if_neg hm]
      by_cases hf : r.name = h' ∧ r.rtype = "CNAME"
      · have he : ¬(h' = h) := by
          intro he
          exact hm ⟨hf.1.trans he, hf.2⟩
        rw [if_neg he]
        simp only [firstCnameAddr_cons]
        rw [if_pos hf, if_pos hf]
      · simp only [firstCnameAddr_cons]
        rw [if_neg hf, if_neg hf, ih]

lemma applyHost_of_firstCnameAddr {h t : String} {rs : List DnsRecord}
    (hf : firstCnameAddr h rs = some t) : applyHost h t rs = (rs, false) := by
  induction rs with
  | nil => simp [firstCnameAddr, List.find?] at hf
  | cons r rest ih =>
    by_cases hm : r.name = h ∧ r.rtype = "CNAME"
    · have hb : (r.name = h && r.rtype = "CNAME") = true := by simp [hm.1, hm.2]
      have : r.address = t := by
        simp [firstCnameAddr, List.find?, hb] at hf
        exact hf
      simp [applyHost, hm, this]
    · have hb : (r.name = h && r.rtype = "CNAME") = false := by
        rcases not_and_or.mp hm with hx | hx <;> simp [hx]
      have hf' : firstCnameAddr h rest = some t := by
        simpa [firstCnameAddr, List.find?, hb] using hf
      simp [applyHost, hm, ih hf']

lemma applyHost_of_flag_false {h t : String} {rs : List DnsRecord}
    (hf : (applyHost h t rs).2 = false) :
    (applyHost h t rs).1 = rs ∧ firstCnameAddr h rs = some t := by
  induction rs with
  | nil => simp [applyHost] at hf
  | cons r rest ih =>
    by_cases hm : r.name = h ∧ r.rtype = "CNAME"
    · have hb : (r.name = h && r.rtype = "CNAME") = true := by simp [hm.1, hm.2]
      by_cases ha : r.address = t
      · constructor
        · simp [applyHost, hm, ha]
        · simp [firstCnameAddr, List.find?, hb, ha]
      · simp [applyHost, hm, ha] at hf
    · have hb : (r.name = h && r.rtype = "CNAME") = false := by
        rcases not_and_or.mp hm with hx | hx <;> simp [hx]
      have hf' : (applyHost h t rest).2 = false := by
        simpa [applyHost, hm] using hf
      rcases ih hf' with ⟨h1, h2⟩
      constructor
      · simp [applyHost, hm, h1]
      · simpa [firstCnameAddr, List.find?, hb] using h2

lemma coherentConfigs_iff {S : List ServiceConfig} :
    coherentConfigs S = true ↔ Coherent S := by
  simp only [coherentConfigs, Coherent, List.all_eq_true, Bool.or_eq_true,
    Bool.not_eq_true', decide_eq_false_iff_not, beq_iff_eq]
  constructor
  · intro hA c hc c₂ hc₂ h hm hm₂
    rcases hA c hc c₂ hc₂ h hm with hx | hx
    · exact absurd hm₂ hx
    · exact hx
  · intro hA c hc c₂ hc₂ h hm
    by_cases hm₂ : h ∈ hostsOf c₂
    · exact Or.inr (hA c hc c₂ hc₂ h hm hm₂)
    · exact Or.inl hm₂

lemma firstCnameAddr_applyConfig_self (c : ServiceConfig) (rs : List DnsRecord) :
    ∀ h ∈ hostsOf c, firstCnameAddr h (applyConfig rs c).1 = some (targetOf c) := by
  intro h hmem
  simp only [hostsOf, List.mem_cons, List.mem_singleton, List.not_mem_nil, or_false] at hmem
  simp only [applyConfig]
  rcases hmem with rfl | rfl
  · rw [firstCnameAddr_applyHost]
    by_cases he : (hostnamesFor c.service_name).1 = (hostnamesFor c.service_name).2
    · rw [if_pos he]
      rfl
    · rw [if_neg he, firstCnameAddr_applyHost, if_pos rfl]
      rfl
  · rw [firstCnameAddr_applyHost, if_pos rfl]
    rfl

lemma firstCnameAddr_applyConfig_preserve (c c' : ServiceConfig) (rs : List DnsRecord)
    (hco : ∀ h, h ∈ hostsOf c' → h ∈ hostsOf c → targetOf c = targetOf c') :
    ∀ h ∈ hostsOf c', firstCnameAddr h rs = some (targetOf c') →
      firstCnameAddr h (applyConfig rs c).1 = some (targetOf c') := by
  intro h hmem hrs
  simp only [applyConfig]
  rw [firstCnameAddr_applyHost]
  by_cases h2 : h = (hostnamesFor c.service_name).2
  · rw [if_pos h2]
    exact congrArg some (hco h hmem (by simp [hostsOf, h2]))
  · rw [if_neg h2, firstCnameAddr_applyHost]
    by_cases h1 : h = (hostnamesFor c.service_name).1
    · rw [if_pos h1]
      exact congrArg some (hco h hmem (by simp [hostsOf, h1]))
    · rw [if_neg h1]
      exact hrs

lemma processConfigs_preserve (c' : ServiceConfig) :
    ∀ (cs : List ServiceConfig) (rs : List DnsRecord) (b : Bool),
    (∀ c ∈ cs, ∀ h, h ∈ hostsOf c' → h ∈ hostsOf c → targetOf c = targetOf c') →
    ∀ h ∈ hostsOf c', firstCnameAddr h rs = some (targetOf c') →
      firstCnameAddr h (processConfigs cs rs b).1 = some (targetOf c') := by
  intro cs
  induction cs with
  | nil => intro rs b _ h hmem hrs; simpa [processConfigs] using hrs
  | cons c cs ih =>
    intro rs b hco h hmem hrs
    simp only [processConfigs]
    exact ih _ _ (fun c₂ hc₂ => hco c₂ (List.mem_cons_of_mem _ hc₂)) h hmem
      (firstCnameAddr_applyConfig_preserve c c' rs
        (hco c (List.mem_cons_self _ _)) h hmem hrs)

lemma processConfigs_establishes :
    ∀ (cs : List ServiceConfig) (rs : List DnsRecord) (b : Bool),
    Coherent cs →
    ∀ c ∈ cs, ∀ h ∈ hostsOf c,
      firstCnameAddr h (processConfigs cs rs b).1 = some (targetOf c) := by
  intro cs
  induction cs with
  | nil => intro rs b _ c hc; cases hc
  | cons c₀ cs ih =>
    intro rs b hC c hc h hmem
    simp only [processConfigs]
    rcases List.mem_cons.mp hc with rfl | hc'
    · exact processConfigs_preserve c cs _ _
        (fun c₂ hc₂ h' hm' hm₂ =>
          hC c₂ (List.mem_cons_of_mem _ hc₂) c (List.mem_cons_self _ _) h' hm₂ hm')
        h hmem (firstCnameAddr_applyConfig_self c rs h hmem)
    · exact ih _ _
        (fun a ha a₂ ha₂ h' hm hm₂ =>
          hC a (List.mem_cons_of_mem _ ha) a₂ (List.mem_cons_of_mem _ ha₂) h' hm hm₂)
        c hc' h hmem

lemma processConfigs_flag :
    ∀ (cs : List ServiceConfig) (rs : List DnsRecord) (b : Bool),
    (processConfigs cs rs b).2 = (b || (processConfigs cs rs false).2) ∧
    (processConfigs cs rs b).1 = (processConfigs cs rs false).1 := by
  intro cs
  induction cs with
  | nil => intro rs b; simp [processConfigs]
  | cons c cs ih =>
    intro rs b
    simp only [processConfigs]
    rcases ih (applyConfig rs c).1 (b || (applyConfig rs c).2) with ⟨hf, hl⟩
    rcases ih (applyConfig rs c).1 (false || (applyConfig rs c).2) with ⟨hf', hl'⟩
    constructor
    · rw [hf, hf', Bool.false_or, Bool.or_assoc]
    · rw [hl, hl']

lemma processConfigs_no_change :
    ∀ (cs : List ServiceConfig) (rs : List DnsRecord),
    (processConfigs cs rs false).2 = false →
    (processConfigs cs rs false).1 = rs ∧
    ∀ c ∈ cs, ∀ h ∈ hostsOf c, firstCnameAddr h rs = some (targetOf c) := by
  intro cs
  induction cs with
  | nil =>
    intro rs _
    exact ⟨rfl, fun c hc => absurd hc (List.not_mem_nil c)⟩
  | cons c cs ih =>
    intro rs hflag
    simp only [processConfigs, Bool.false_or] at hflag ⊢
    have hsplit := (processConfigs_flag cs (applyConfig rs c).1 (applyConfig rs c).2).1
    rw [hsplit, Bool.or_eq_false_iff] at hflag
    rcases hflag with ⟨hp2, hrest⟩
    have hp2' : ((applyHost (hostnamesFor c.service_name).1 (get_fly_app_cname c.app_name) rs).2 ||
        (applyHost (hostnamesFor c.service_name).2 (get_fly_app_cname c.app_name)
          (applyHost (hostnamesFor c.service_name).1 (get_fly_app_cname c.app_name) rs).1).2) = false := hp2
    rw [Bool.or_eq_false_iff] at hp2'
    rcases hp2' with ⟨hq, hw⟩
    rcases applyHost_of_flag_false hq with ⟨hq1, hq2⟩
    rw [hq1] at hw
    rcases applyHost_of_flag_false hw with ⟨hw1, hw2⟩
    have hp1 : (applyConfig rs c).1 = rs := by
      simp only [applyConfig]
      rw [hq1, hw1]
    rw [hp1] at hrest
    rcases ih rs hrest with ⟨ih1, ih2⟩
    refine ⟨?_, ?_⟩
    · rw [(processConfigs_flag cs (applyConfig rs c).1 (applyConfig rs c).2).2, hp1, ih1]
    · intro c₂ hc₂ h hmem
      rcases List.mem_cons.mp hc₂ with rfl | hc₂'
      · simp only [hostsOf, List.mem_cons, List.mem_singleton, List.not_mem_nil,
          or_false] at hmem
        rcases hmem with rfl | rfl
        · exact hq2
        · exact hw2
      · exact ih2 c₂ hc₂' h hmem

lemma processConfigs_of_invariant :
    ∀ (cs : List ServiceConfig) (rs : List DnsRecord) (b : Bool),
    (∀ c ∈ cs, ∀ h ∈ hostsOf c, firstCnameAddr h rs = some (targetOf c)) →
    processConfigs cs rs b = (rs, b) := by
  intro cs
  induction cs with
  | nil => intro rs b _; rfl
  | cons c cs ih =>
    intro rs b hinv
    have hq : applyHost (hostnamesFor c.service_name).1 (get_fly_app_cname c.app_name) rs =
        (rs, false) :=
      applyHost_of_firstCnameAddr
        (hinv c (List.mem_cons_self _ _) _ (by simp [hostsOf]))
    have hw : applyHost (hostnamesFor c.service_name).2 (get_fly_app_cname c.app_name) rs =
        (rs, false) :=
      applyHost_of_firstCnameAddr
        (hinv c (List.mem_cons_self _ _) _ (by simp [hostsOf]))
    have hcfg : applyConfig rs c = (rs, false) := by
      simp only [applyConfig]
      rw [hq]
      simp only
      rw [hw]
      rfl
    simp only [processConfigs, hcfg, Bool.or_false]
    exact ih rs b (fun c₂ hc₂ => hinv c₂ (List.mem_cons_of_mem _ hc₂))

/-- C2 (corrected): the claim as stated fails because two service configs
can plan the same hostname with different CNAME targets, after which each
run keeps rewriting the shared record.  Concrete counterexample: services
`www.a` (app `x`) and `a` (app `y`) both plan the hostname `www.a`
(the first as its main hostname, the second as its `www` hostname); running
the planner on its own output still reports `changes_made = true`. -/
theorem dns_planning_not_idempotent :
    (prepare_dns_changes_for_services [⟨"www.a", "x"⟩, ⟨"a", "y"⟩]
      (prepare_dns_changes_for_services [⟨"www.a", "x"⟩, ⟨"a", "y"⟩] []).1).2 = true := by
  decide

/-- C2 (amended): for every set of existing DNS records `R` and every
coherent list of service configs `S` — no two configs of `S` plan a common
hostname with different CNAME targets, which holds in particular for the
actual deployments, whose configs have distinct service names not
colliding through the `www.` prefix — planning is idempotent: running
`prepare_dns_changes_for_services` on the record set it produced reports
`changes_made = false`, and consequently `bulk_update_dns_for_services`
skips the bulk applier on the second run. -/
theorem dns_planning_idempotent (S : List ServiceConfig) (R : List DnsRecord)
    (hco : coherentConfigs S = true) :
    (prepare_dns_changes_for_services S
      (prepare_dns_changes_for_services S R).1).2 = false ∧
    bulkUpdateApplies S (prepare_dns_changes_for_services S R).1 = false := by
  have hC : Coherent S := coherentConfigs_iff.mp hco
  have hinv : ∀ c ∈ S, ∀ h ∈ hostsOf c,
      firstCnameAddr h (prepare_dns_changes_for_services S R).1 = some (targetOf c) := by
    simp only [prepare_dns_changes_for_services]
    by_cases hflag : (processConfigs S R false).2 = true
    · simp only [hflag, if_pos]
      exact processConfigs_establishes S R false hC
    · simp only [Bool.not_eq_true] at hflag
      simp only [hflag, Bool.false_eq_true, if_false]
      exact (processConfigs_no_change S R hflag).2
  have hrun2 : processConfigs S (prepare_dns_changes_for_services S R).1 false =
      ((prepare_dns_changes_for_services S R).1, false) :=
    processConfigs_of_invariant S _ false hinv
  have hp : (prepare_dns_changes_for_services S
      (prepare_dns_changes_for_services S R).1).2 = false := by
    generalize hR : (prepare_dns_changes_for_services S R).1 = R' at hrun2
    simp only [prepare_dns_changes_for_services, hrun2]
    rfl
  exact ⟨hp, hp⟩

/-- Witness for C2 (amended): a main site, a blog and an unrelated mail
record; the amended hypothesis holds and replanning reports no changes. -/
theorem dns_planning_idempotent_witness :
    coherentConfigs [⟨"main-site", "shmuel-tech-main-site"⟩, ⟨"blog", "shmuel-tech-blog"⟩] =
      true ∧
    (prepare_dns_changes_for_services
      [⟨"main-site", "shmuel-tech-main-site"⟩, ⟨"blog", "shmuel-tech-blog"⟩]
      (prepare_dns_changes_for_services
        [⟨"main-site", "shmuel-tech-main-site"⟩, ⟨"blog", "shmuel-tech-blog"⟩]
        [⟨"@", "MX", "mail.example.com.", "1800", "10"⟩]).1).2 = false ∧
    bulkUpdateApplies
      [⟨"main-site", "shmuel-tech-main-site"⟩, ⟨"blog", "shmuel-tech-blog"⟩]
      (prepare_dns_changes_for_services
        [⟨"main-site", "shmuel-tech-main-site"⟩, ⟨"blog", "shmuel-tech-blog"⟩]
        [⟨"@", "MX", "mail.example.com.", "1800", "10"⟩]).1 = false := by
  refine ⟨by decide, ?_⟩
  have h := dns_planning_idempotent
    [⟨"main-site", "shmuel-tech-main-site"⟩, ⟨"blog", "shmuel-tech-blog"⟩]
    [⟨"@", "MX", "mail.example.com.", "1800", "10"⟩] (by decide)
  exact h

/-- C4: for every service config processed by the DNS planner, the planned
hostname pair is exactly `("@", "www")` when the service name is
`main-site`, and `(x, "www." ++ x)` for any other service name `x`; the
CNAME target is `<app_name>.fly.dev.` with trailing dot; and after the
per-service planning step, each of the two hostnames has a first CNAME
record pointing exactly at that target. -/
theorem dns_hostnames_per_service (c : ServiceConfig) (rs : List DnsRecord) :
    hostnamesFor c.service_name =
      (if c.service_name = "main-site" then ("@", "www")
       else (c.service_name, "www." ++ c.service_name)) ∧
    get_fly_app_cname c.app_name = c.app_name ++ ".fly.dev." ∧
    firstCnameAddr (hostnamesFor c.service_name).1 (applyConfig rs c).1 =
      some (get_fly_app_cname c.app_name) ∧
    firstCnameAddr (hostnamesFor c.service_name).2 (applyConfig rs c).1 =
      some (get_fly_app_cname c.app_name) :=
  ⟨rfl, rfl,
    firstCnameAddr_applyConfig_self c rs _ (by simp [hostsOf]),
    firstCnameAddr_applyConfig_self c rs _ (by simp [hostsOf])⟩

/-! ## Parallel deployment orchestrator (`scripts/deploy.py`)

`deploy_single_service_worker` returns a `(service_name, success, message,
full_traceback)` tuple; `_deploy_services_parallel` collects one such tuple
per submitted service (a future that raises is converted into a failure
tuple in the `as_completed` loop, so no result is lost), sorts them by
service name, counts successes and failures, and raises an aggregate
exception iff at least one failed; `main` exits 0 when the call returns
`True` and 1 when it raises. -/
structure WorkerResult where
  service_name : String
  success : Bool
  message : String
deriving DecidableEq, Repr

/-- The sort key comparison used by `results.sort(key=lambda x: x[0])`. -/
def byServiceName (a b : WorkerResult) : Prop :=
  a.service_name ≤ b.service_name

instance : DecidableRel byServiceName := fun a b =>
  inferInstanceAs (Decidable (a.service_name ≤ b.service_name))

instance : IsTotal WorkerResult byServiceName :=
  ⟨fun a b => le_total a.service_name b.service_name⟩

instance : IsTrans WorkerResult byServiceName :=
  ⟨fun _ _ _ hab hbc => le_trans hab hbc⟩

/-- The report assembled by `_deploy_services_parallel` (deploy.py lines
433-481): results sorted by service name (the stable Python sort, modelled
by a stable insertion sort), the success/error tallies, and the aggregate
exception message raised iff `error_count > 0`. -/
structure DeployReport where
  sorted : List WorkerResult
  successCount : Nat
  errorCount : Nat
  raisedError : Option String
deriving DecidableEq, Repr

/-- Function `_deploy_services_parallel`, modelled on the list of collected worker
results. -/
def deployServicesParallel (results : List WorkerResult) : DeployReport :=
  let sorted := results.insertionSort byServiceName
  let sc := (sorted.filter (fun r => r.success)).length
  let ec := (sorted.filter (fun r => !r.success)).length
  { sorted := sorted
    successCount := sc
    errorCount := ec
    raisedError :=
      if ec > 0 then
        some ("Deployment failed for " ++ toString ec ++ " out of " ++
          toString results.length ++ " services")
      else none }

/-- Function `main` (deploy.py lines 509-519): exits 0 when the deployment returned
`True`, 1 when the aggregate exception was raised. -/
def deployExitCode (results : List WorkerResult) : Nat :=
  match (deployServicesParallel results).raisedError with
  | some _ => 1
  | none => 0

lemma length_filter_success (l : List WorkerResult) :
    (l.filter (fun r => r.success)).length + (l.filter (fun r => !r.success)).length =
      l.length := by
  induction l with
  | nil => rfl
  | cons r rest ih =>
    by_cases hs : r.success = true
    · simp [List.filter, hs, Nat.succ_add, ih]
    · simp only [Bool.not_eq_true] at hs
      simp [List.filter, hs, ← Nat.add_assoc, Nat.add_comm, ih]
      omega

/-- C3: for every run of the parallel deployment whose collected worker
results are `results` (one per service, `N` in total) with exactly `K`
failures, the reported success count is `N − K`, the report lists all `N`
results sorted by service name (a permutation of the collected results,
sorted under the service-name order), the aggregate exception is raised
iff `K > 0`, and the process exit code is non-zero iff `K > 0`. -/
theorem deploy_parallel_summary (results : List WorkerResult) :
    (deployServicesParallel results).successCount =
      results.length - (results.filter (fun r => !r.success)).length ∧
    (deployServicesParallel results).sorted.Perm results ∧
    List.Sorted byServiceName (deployServicesParallel results).sorted ∧
    ((deployServicesParallel results).raisedError.isSome ↔
      0 < (results.filter (fun r => !r.success)).length) ∧
    (deployExitCode results ≠ 0 ↔
      0 < (results.filter (fun r => !r.success)).length) := by
  have hperm : (results.insertionSort byServiceName).Perm results :=
    List.perm_insertionSort byServiceName results
  have hpf : ((results.insertionSort byServiceName).filter (fun r => !r.success)).Perm
      (results.filter (fun r => !r.success)) := hperm.filter _
  have hps : ((results.insertionSort byServiceName).filter (fun r => r.success)).Perm
      (results.filter (fun r => r.success)) := hperm.filter _
  have hK : ((results.insertionSort byServiceName).filter (fun r => !r.success)).length =
      (results.filter (fun r => !r.success)).length := hpf.length_eq
  have hS : ((results.insertionSort byServiceName).filter (fun r => r.success)).length =
      (results.filter (fun r => r.success)).length := hps.length_eq
  have hsum := length_filter_success results
  refine ⟨?_, hperm, List.sorted_insertionSort byServiceName results, ?_, ?_⟩
  · simp only [deployServicesParallel, hS]
    omega
  · simp only [deployServicesParallel, hK]
    by_cases hk : 0 < (results.filter (fun r => !r.success)).length
    · simp [hk]
    · simp [hk, Nat.not_lt.mp hk]
  · simp only [deployExitCode, deployServicesParallel, hK]
    by_cases hk : 0 < (results.filter (fun r => !r.success)).length
    · simp [hk]
    · simp [hk, Nat.not_lt.mp hk]

/-! ## Certificate issuance wait (`scripts/deploy.py` lines 137-175)

Each iteration of the `while time.time() - start_time < timeout` loop runs
one `flyctl certs show` poll and then sleeps one second
(`time.sleep(1)` on both the not-ready and the parse-error path), so the
elapsed time entering iteration `i` is `i` seconds; the observed outcome
of poll `i` is passed in as `polls i`. -/
structure CmdResult where
  returncode : Int
  stdout : String
  stderr : String
deriving DecidableEq, Repr

/-- What one certificate status poll can observe: a non-zero exit of the
status command, JSON that fails to parse, or parsed certificate data
(`Issued.Nodes` non-empty, the `Configured` flag, `CertificateAuthority`,
`ClientStatus`). -/
inductive CertPoll where
  | checkFailed (stderr : String)
  | parseError
  | status (issuedNodes : Bool) (configured : Bool)
      (certificateAuthority : String) (clientStatus : String)
deriving DecidableEq, Repr

/-- A poll whose command succeeded and whose JSON parsed. -/
def pollParsed : CertPoll → Bool
  | .status _ _ _ _ => true
  | _ => false

/-- The issued test of lines 152-159: `Issued.Nodes` non-empty, or
`Configured` true together with a non-empty `CertificateAuthority`. -/
def certReady : CertPoll → Bool
  | .status issuedNodes configured ca _ => issuedNodes || (configured && !(ca == ""))
  | _ => false

/-- The message of line 175, naming the domain and the timeout in
seconds. -/
def certTimeoutMsg (domain : String) (timeout : Nat) : String :=
  "Timeout waiting for certificate " ++ squoteStr ++ domain ++ squoteStr ++
    " to be issued after " ++ toString timeout ++ " seconds"

/-- Function `wait_for_certificate_issuance`, entered at elapsed time `i`. -/
def wait_for_certificate_issuance (domain : String) (timeout : Nat)
    (polls : Nat → CertPoll) (i : Nat) : Bool × Option String :=
  if h : i < timeout then
    match polls i with
    | .checkFailed err => (false, some ("Certificate check failed: " ++ err))
    | .parseError => wait_for_certificate_issuance domain timeout polls (i + 1)
    | .status a b ca cs =>
      if certReady (.status a b ca cs) then (true, none)
      else wait_for_certificate_issuance domain timeout polls (i + 1)
  else (false, some (certTimeoutMsg domain timeout))
termination_by timeout - i
decreasing_by all_goals omega

/-- Python `str(x)` on `Optional[str]` as interpolated into worker
messages. -/
def optStr : Option String → String
  | none => "None"
  | some s => s

/-- The error text of lines 106-108 and 121:
`Exit code {rc}: {stderr.strip() or Unknown error}`. -/
def exitCodeMsg (r : CmdResult) : String :=
  "Exit code " ++ toString r.returncode ++ ": " ++
    (if r.stderr = "" then "Unknown error" else r.stderr.trim)

/-- Function `add_certificate` (deploy.py lines 111-134): for each domain run
`flyctl certs add` (outcome `certsAdd d`), abort on a non-zero exit, then
block on `wait_for_certificate_issuance` (outcome `waitFor d`), aborting
with the message of the wait on failure. -/
def add_certificate (certsAdd : String → CmdResult)
    (waitFor : String → Bool × Option String) : List String → Bool × Option String
  | [] => (true, none)
  | d :: rest =>
    let r := certsAdd d
    if r.returncode ≠ 0 then (false, some (exitCodeMsg r))
    else
      let w := waitFor d
      if w.1 then add_certificate certsAdd waitFor rest
      else (false, some ("Failed to wait for certificate " ++ squoteStr ++ d ++
        squoteStr ++ ": " ++ optStr w.2))

/-- Python `repr` of a list of plain strings, as interpolated by
`f"...{missing_certs}..."`. -/
def pyStrListRepr (xs : List String) : String :=
  "[" ++ String.intercalate ", " (xs.map (fun s => squoteStr ++ s ++ squoteStr)) ++ "]"

/-- The worker result returned at deploy.py line 262 when certificate
setup fails: a failure tuple for this service alone. -/
def workerCertFailureResult (serviceName : String) (missingCerts : List String)
    (errMsg : Option String) : WorkerResult :=
  ⟨serviceName, false,
    "Failed to add certificates for " ++ pyStrListRepr missingCerts ++ ": " ++ optStr errMsg⟩

lemma wait_timeout_of_never_ready (domain : String) (timeout : Nat)
    (polls : Nat → CertPoll)
    (hpoll : ∀ j, j < timeout → pollParsed (polls j) = true ∧ certReady (polls j) = false) :
    ∀ n i, timeout - i ≤ n →
      wait_for_certificate_issuance domain timeout polls i =
        (false, some (certTimeoutMsg domain timeout)) := by
  intro n
  induction n with
  | zero =>
    intro i hi
    have hge : ¬(i < timeout) := by omega
    rw [wait_for_certificate_issuance, dif_neg hge]
  | succ n ih =>
    intro i hi
    by_cases h : i < timeout
    · rw [wait_for_certificate_issuance, dif_pos h]
      rcases hpoll i h with ⟨hp, hr⟩
      cases hpolls : polls i with
      | checkFailed err => rw [hpolls] at hp; cases hp
      | parseError => rw [hpolls] at hp; cases hp
      | status a b ca cs =>
        rw [hpolls] at hr
        simp only [hr, Bool.false_eq_true, if_false]
        exact ih (i + 1) (by omega)
    · rw [wait_for_certificate_issuance, dif_neg h]

/-- C5: if every certificate status poll succeeds (command exits 0 and the
JSON parses) but the certificate is never reported issued before the
timeout elapses, `wait_for_certificate_issuance` returns failure with the
timeout-specific message naming the domain and the timeout in seconds;
`add_certificate` then fails with that message wrapped in its per-domain
error, the worker records this as the failure result of that service alone, and
the orchestrator report still collects this result together with the
results of all other workers (no other worker is aborted). -/
theorem cert_wait_timeout_isolated (domain : String) (timeout : Nat)
    (polls : Nat → CertPoll) (serviceName : String) (certsAdd : String → CmdResult)
    (others : List WorkerResult)
    (hpoll : ∀ j, j < timeout → pollParsed (polls j) = true ∧ certReady (polls j) = false)
    (hadd : (certsAdd domain).returncode = 0) :
    wait_for_certificate_issuance domain timeout polls 0 =
      (false, some (certTimeoutMsg domain timeout)) ∧
    add_certificate certsAdd (fun d => wait_for_certificate_issuance d timeout polls 0)
        [domain] =
      (false, some ("Failed to wait for certificate " ++ squoteStr ++ domain ++
        squoteStr ++ ": " ++ certTimeoutMsg domain timeout)) ∧
    (workerCertFailureResult serviceName [domain]
        (add_certificate certsAdd (fun d => wait_for_certificate_issuance d timeout polls 0)
          [domain]).2).success = false ∧
    (deployServicesParallel
        (workerCertFailureResult serviceName [domain]
          (add_certificate certsAdd (fun d => wait_for_certificate_issuance d timeout polls 0)
            [domain]).2 :: others)).sorted.Perm
      (workerCertFailureResult serviceName [domain]
        (add_certificate certsAdd (fun d => wait_for_certificate_issuance d timeout polls 0)
          [domain]).2 :: others) := by
  have hwait : wait_for_certificate_issuance domain timeout polls 0 =
      (false, some (certTimeoutMsg domain timeout)) :=
    wait_timeout_of_never_ready domain timeout polls hpoll (timeout - 0) 0 le_rfl
  have haddres : add_certificate certsAdd
      (fun d => wait_for_certificate_issuance d timeout polls 0) [domain] =
      (false, some ("Failed to wait for certificate " ++ squoteStr ++ domain ++
        squoteStr ++ ": " ++ certTimeoutMsg domain timeout)) := by
    simp only [add_certificate, hadd]
    rw [if_neg (by simp)]
    rw [hwait]
    rfl
  refine ⟨hwait, haddres, rfl, List.perm_insertionSort byServiceName _⟩

/-- Witness for C5: two polls that both parse but never report issuance,
a `certs add` that exits 0, and one other healthy worker. -/
theorem cert_wait_timeout_isolated_witness :
    wait_for_certificate_issuance "blog.shmuel.tech" 2
        (fun _ => CertPoll.status false false "" "awaiting certificates") 0 =
      (false, some (certTimeoutMsg "blog.shmuel.tech" 2)) ∧
    add_certificate (fun _ => ⟨0, "", ""⟩)
        (fun d => wait_for_certificate_issuance d 2
          (fun _ => CertPoll.status false false "" "awaiting certificates") 0)
        ["blog.shmuel.tech"] =
      (false, some ("Failed to wait for certificate " ++ squoteStr ++ "blog.shmuel.tech" ++
        squoteStr ++ ": " ++ certTimeoutMsg "blog.shmuel.tech" 2)) ∧
    (workerCertFailureResult "blog" ["blog.shmuel.tech"]
        (add_certificate (fun _ => ⟨0, "", ""⟩)
          (fun d => wait_for_certificate_issuance d 2
            (fun _ => CertPoll.status false false "" "awaiting certificates") 0)
          ["blog.shmuel.tech"]).2).success = false ∧
    (deployServicesParallel
        (workerCertFailureResult "blog" ["blog.shmuel.tech"]
          (add_certificate (fun _ => ⟨0, "", ""⟩)
            (fun d => wait_for_certificate_issuance d 2
              (fun _ => CertPoll.status false false "" "awaiting certificates") 0)
            ["blog.shmuel.tech"]).2 :: [⟨"main-site", true, "ok"⟩])).sorted.Perm
      (workerCertFailureResult "blog" ["blog.shmuel.tech"]
        (add_certificate (fun _ => ⟨0, "", ""⟩)
          (fun d => wait_for_certificate_issuance d 2
            (fun _ => CertPoll.status false false "" "awaiting certificates") 0)
          ["blog.shmuel.tech"]).2 :: [⟨"main-site", true, "ok"⟩]) :=
  cert_wait_timeout_isolated "blog.shmuel.tech" 2
    (fun _ => CertPoll.status false false "" "awaiting certificates")
    "blog" (fun _ => ⟨0, "", ""⟩) [⟨"main-site", true, "ok"⟩]
    (by decide) (by decide)

/-! ## Computable character-level string primitives

The Python `str.startswith`, `str.split`, `<` and friends, embedded over the
character list of a `String` so that every operation evaluates by kernel
reduction. -/

/-- Here `listStarts p s = true` iff `p` is an initial segment of `s`
(Python `s.startswith(p)` on the underlying characters). -/
def listStarts : List Char → List Char → Bool
  | [], _ => true
  | _ :: _, [] => false
  | p :: ps, c :: cs => p == c && listStarts ps cs

/-- Python `s.startswith(p)`. -/
def strStarts (s p : String) : Bool := listStarts p.toList s.toList

/-- Code-point lexicographic `≤` on character lists: the Python string
comparison order. -/
def listCharLE : List Char → List Char → Bool
  | [], _ => true
  | _ :: _, [] => false
  | a :: as, b :: bs => if a == b then listCharLE as bs else decide (a < b)

/-- The Python `≤` on strings (code-point lexicographic), as a proposition. -/
def pyStrLE (a b : String) : Prop := listCharLE a.toList b.toList = true

instance : DecidableRel pyStrLE := fun a b =>
  inferInstanceAs (Decidable (listCharLE a.toList b.toList = true))

lemma listCharLE_total : ∀ l₁ l₂ : List Char, listCharLE l₁ l₂ = true ∨ listCharLE l₂ l₁ = true := by
  intro l₁
  induction l₁ with
  | nil => intro l₂; exact Or.inl rfl
  | cons a as ih =>
    intro l₂
    cases l₂ with
    | nil => exact Or.inr rfl
    | cons b bs =>
      by_cases hab : a = b
      · subst hab
        rcases ih bs with hx | hx
        · exact Or.inl (by simp [listCharLE, hx])
        · exact Or.inr (by simp [listCharLE, hx])
      · have hba : ¬b = a := fun hx => hab hx.symm
        rcases lt_or_gt_of_ne hab with hv | hv
        · exact Or.inl (by simp [listCharLE, hab, hv])
        · exact Or.inr (by simp [listCharLE, hba, hv])

lemma listCharLE_trans : ∀ l₁ l₂ l₃ : List Char,
    listCharLE l₁ l₂ = true → listCharLE l₂ l₃ = true → listCharLE l₁ l₃ = true := by
  intro l₁
  induction l₁ with
  | nil => intro l₂ l₃ _ _; rfl
  | cons a as ih =>
    intro l₂ l₃ h12 h23
    cases l₂ with
    | nil => simp [listCharLE] at h12
    | cons b bs =>
      cases l₃ with
      | nil => simp [listCharLE] at h23
      | cons c cs =>
        by_cases hab : a = b
        · subst hab
          simp only [listCharLE, beq_self_eq_true, if_true] at h12
          by_cases hac : a = c
          · subst hac
            simp only [listCharLE, beq_self_eq_true, if_true] at h23 ⊢
            exact ih bs cs h12 h23
          · have hb : (a == c) = false := beq_eq_false_iff_ne.mpr hac
            simp only [listCharLE, hb, Bool.false_eq_true, if_false] at h23 ⊢
            exact h23
        · have hb : (a == b) = false := beq_eq_false_iff_ne.mpr hab
          simp only [listCharLE, hb, Bool.false_eq_true, if_false,
            decide_eq_true_eq] at h12
          by_cases hbc : b = c
          · subst hbc
            have hac : (a == b) = false := beq_eq_false_iff_ne.mpr hab
            simp only [listCharLE, hac, Bool.false_eq_true, if_false,
              decide_eq_true_eq]
            exact h12
          · have hbcb : (b == c) = false := beq_eq_false_iff_ne.mpr hbc
            simp only [listCharLE, hbcb, Bool.false_eq_true, if_false,
              decide_eq_true_eq] at h23
            have hlt : a < c := lt_trans h12 h23
            have hacb : (a == c) = false := by
              refine beq_eq_false_iff_ne.mpr (fun hx => ?_)
              subst hx
              exact lt_irrefl _ hlt
            simp only [listCharLE, hacb, Bool.false_eq_true, if_false,
              decide_eq_true_eq]
            exact hlt

instance : IsTotal String pyStrLE :=
  ⟨fun a b => listCharLE_total a.toList b.toList⟩

instance : IsTrans String pyStrLE :=
  ⟨fun a b c hab hbc => listCharLE_trans a.toList b.toList c.toList hab hbc⟩

/-- Python `s.split(sep)` for a single-character separator (never returns
an empty list; splitting the empty string gives `[""]`). -/
def splitOnChar (sep : Char) : List Char → List (List Char)
  | [] => [[]]
  | c :: cs =>
    if c == sep then [] :: splitOnChar sep cs
    else
      match splitOnChar sep cs with
      | [] => [[c]]
      | p :: ps => (c :: p) :: ps

/-! ## Change detection (`scripts/detect_changes.py`)

`detect_changes` reads the filesystem (`get_all_services`) and git
(`get_changed_files`); both are passed in as lists: `allServices` is the
set of existing, non-hidden service subdirectories of the services root,
`changedFiles` the `git diff --name-only` output lines.  Python sets
followed by `sorted(list(...))` are modelled by `sortedDedup`: the result
is the ascending enumeration of the distinct members, which is exactly
what the CPython sorted list of a set of strings is. -/
def sortedDedup (xs : List String) : List String :=
  xs.dedup.insertionSort pyStrLE

/-- The `root_files` list of detect_changes.py lines 122-128. -/
def rootFiles : List String :=
  ["docker-compose.yml", "Makefile", ".github/workflows/",
   "scripts/deploy.py", "scripts/service_handler.py"]

/-- The scan of lines 130-138: some changed file starts with some root
file path. -/
def hasRootChange (changedFiles : List String) : Bool :=
  changedFiles.any (fun f => rootFiles.any (fun rf => strStarts f rf))

/-- Function `get_changed_services` (lines 49-61): the second path component of
every changed file under `<services_dir>/`, as a multiset (the Python set
is only ever sorted afterwards). -/
def get_changed_services (changedFiles : List String) (servicesDir : String) : List String :=
  changedFiles.filterMap (fun f =>
    if strStarts f (servicesDir ++ "/") then
      ((splitOnChar '/' f.toList).get? 1).map String.mk
    else none)

/-- Function `detect_changes` (lines 78-156), with the filesystem and git inputs
explicit. -/
def detect_changes (allServices changedFiles : List String)
    (forceAll includeRootChanges : Bool) (servicesDirName : String) : List String :=
  if forceAll then sortedDedup allServices
  else if allServices.isEmpty then []
  else if changedFiles.isEmpty then []
  else if includeRootChanges && hasRootChange changedFiles then sortedDedup allServices
  else if ((get_changed_services changedFiles servicesDirName).filter
      (fun s => allServices.contains s)).isEmpty then []
  else
    sortedDedup ((get_changed_services changedFiles servicesDirName).filter
      (fun s => allServices.contains s))

lemma sortedDedup_sorted (xs : List String) :
    List.Sorted pyStrLE (sortedDedup xs) :=
  List.sorted_insertionSort _ xs.dedup

lemma mem_of_mem_sortedDedup {xs : List String} {s : String}
    (hs : s ∈ sortedDedup xs) : s ∈ xs :=
  List.mem_dedup.mp ((List.perm_insertionSort _ xs.dedup).mem_iff.mp hs)

/-- C6: `detect_changes` with `force_all = true` returns the full (sorted,
deduplicated) service set regardless of the changed files; with
`force_all = false` and root-change handling enabled, a changed-files list
containing a path starting with `scripts/deploy.py` also yields the full
service set; and a changed-files list consisting only of
`services/foo/x.go`, where `foo` is an existing service, yields exactly
`["foo"]`. -/
theorem detect_changes_cases :
    (∀ (allServices changedFiles : List String) (irc : Bool),
      detect_changes allServices changedFiles true irc "services" =
        sortedDedup allServices) ∧
    (∀ (allServices changedFiles : List String),
      (∃ f ∈ changedFiles, strStarts f "scripts/deploy.py" = true) →
      detect_changes allServices changedFiles false true "services" =
        sortedDedup allServices) ∧
    (∀ allServices : List String, allServices.contains "foo" = true →
      detect_changes allServices ["services/foo/x.go"] false true "services" = ["foo"]) := by
  refine ⟨?_, ?_, ?_⟩
  · intro allServices changedFiles irc
    simp [detect_changes]
  · intro allServices changedFiles hex
    rcases hex with ⟨f, hf, hpre⟩
    have hroot : hasRootChange changedFiles = true := by
      simp only [hasRootChange, List.any_eq_true]
      exact ⟨f, hf, by
        simp only [rootFiles, List.any_eq_true]
        exact ⟨"scripts/deploy.py", by simp, hpre⟩⟩
    have hfne : changedFiles.isEmpty = false := by
      cases changedFiles with
      | nil => cases hf
      | cons a as => rfl
    cases allServices with
    | nil => simp [detect_changes, sortedDedup]
    | cons a as => simp [detect_changes, hroot, hfne]
  · intro allServices hfoo
    have hne : allServices.isEmpty = false := by
      cases allServices with
      | nil => simp [List.contains, List.elem] at hfoo
      | cons a as => rfl
    have hroot : hasRootChange ["services/foo/x.go"] = false := by decide
    have hchanged : get_changed_services ["services/foo/x.go"] "services" = ["foo"] := by
      decide
    have hdedup : sortedDedup ["foo"] = ["foo"] := by decide
    have hfilter : List.filter (fun s => allServices.contains s) ["foo"] = ["foo"] := by
      simp only [List.filter_cons, List.filter_nil, hfoo, if_true]
    simp only [detect_changes, Bool.false_eq_true, if_false, hne, hroot,
      Bool.true_and, hchanged, hfilter, List.isEmpty_cons, hdedup]

/-- Witness for C6: a concrete two-service tree exercising all three
conjuncts (force-all, root change via `scripts/deploy.py`, single service
change). -/
theorem detect_changes_cases_witness :
    detect_changes ["foo", "blog"] ["README.md"] true true "services" =
      sortedDedup ["foo", "blog"] ∧
    detect_changes ["foo", "blog"] ["scripts/deploy.py"] false true "services" =
      sortedDedup ["foo", "blog"] ∧
    detect_changes ["foo", "blog"] ["services/foo/x.go"] false true "services" = ["foo"] :=
  ⟨detect_changes_cases.1 ["foo", "blog"] ["README.md"] true,
   detect_changes_cases.2.1 ["foo", "blog"] ["scripts/deploy.py"]
     ⟨"scripts/deploy.py", by simp, by decide⟩,
   detect_changes_cases.2.2 ["foo", "blog"] (by decide)⟩

/-- C9: every list returned by `detect_changes`, on every input (including
the force-all and root-change paths), is sorted ascending and contains
only names of existing service subdirectories (members of `allServices`);
changed services whose directories do not exist are silently dropped. -/
theorem detect_changes_sorted_and_existing (allServices changedFiles : List String)
    (forceAll includeRootChanges : Bool) (servicesDirName : String) :
    List.Sorted pyStrLE
      (detect_changes allServices changedFiles forceAll includeRootChanges servicesDirName) ∧
    ∀ s ∈ detect_changes allServices changedFiles forceAll includeRootChanges
        servicesDirName, s ∈ allServices := by
  unfold detect_changes
  by_cases hfa : forceAll = true
  · simp only [hfa, if_true]
    exact ⟨sortedDedup_sorted allServices, fun s hs => mem_of_mem_sortedDedup hs⟩
  · simp only [Bool.not_eq_true] at hfa
    simp only [hfa, Bool.false_eq_true, if_false]
    by_cases hase : allServices.isEmpty = true
    · simp only [hase, if_true]
      exact ⟨List.sorted_nil, fun s hs => absurd hs (List.not_mem_nil s)⟩
    · simp only [Bool.not_eq_true] at hase
      simp only [hase, Bool.false_eq_true, if_false]
      by_cases hcfe : changedFiles.isEmpty = true
      · simp only [hcfe, if_true]
        exact ⟨List.sorted_nil, fun s hs => absurd hs (List.not_mem_nil s)⟩
      · simp only [Bool.not_eq_true] at hcfe
        simp only [hcfe, Bool.false_eq_true, if_false]
        by_cases hrc : (includeRootChanges && hasRootChange changedFiles) = true
        · simp only [hrc, if_true]
          exact ⟨sortedDedup_sorted allServices, fun s hs => mem_of_mem_sortedDedup hs⟩
        · simp only [Bool.not_eq_true] at hrc
          simp only [hrc, Bool.false_eq_true, if_false]
          by_cases hve : (List.filter (fun s => allServices.contains s)
              (get_changed_services changedFiles servicesDirName)).isEmpty = true
          · simp only [hve, if_true]
            exact ⟨List.sorted_nil, fun s hs => absurd hs (List.not_mem_nil s)⟩
          · simp only [Bool.not_eq_true] at hve
            simp only [hve, Bool.false_eq_true, if_false]
            refine ⟨sortedDedup_sorted _, fun s hs => ?_⟩
            have hmem := mem_of_mem_sortedDedup hs
            have hf := List.mem_filter.mp hmem
            simpa using hf.2

/-! ## Environment file parsing (`scripts/sync_secrets.py` lines 20-52)

`parse_env_file` reads the file line by line; the lines (without their
trailing newline, which `strip()` would remove anyway) are passed as a
list.  The Python `dict` is an insertion-ordered association list with
in-place overwrite; the warning printed for an invalid line is recorded in
a warning list (parsing never fails on such a line). -/

/-- ASCII whitespace stripped by Python `str.strip()`:
space, tab, newline, carriage return, vertical tab, form feed. -/
def isSpaceChar (c : Char) : Bool :=
  c == Char.ofNat 32 || c == Char.ofNat 9 || c == Char.ofNat 10 ||
    c == Char.ofNat 13 || c == Char.ofNat 11 || c == Char.ofNat 12

/-- Python `str.strip()` on the character list. -/
def pyStripChars (l : List Char) : List Char :=
  ((l.dropWhile isSpaceChar).reverse.dropWhile isSpaceChar).reverse

/-- The double quote character. -/
def dquote : Char := Char.ofNat 34

/-- Python `line.split` at the first `=`: `none` when the line has no `=` (the
invalid-line case), otherwise the parts before and after the first `=`. -/
def splitFirstEq : List Char → Option (List Char × List Char)
  | [] => none
  | c :: cs =>
    if c == '=' then some ([], cs)
    else
      match splitFirstEq cs with
      | none => none
      | some p => some (c :: p.1, p.2)

/-- Lines 41-45: remove one matching pair of surrounding double quotes,
else one matching pair of surrounding single quotes (`value[1:-1]`). -/
def stripQuotes (v : List Char) : List Char :=
  if v.head? == some dquote && v.getLast? == some dquote then (v.drop 1).dropLast
  else if v.head? == some squote && v.getLast? == some squote then (v.drop 1).dropLast
  else v

/-- Python dict insertion `secrets[key] = value`: overwrite in place when
the key exists, append otherwise. -/
def dictInsert (d : List (String × String)) (k v : String) : List (String × String) :=
  if d.any (fun p => p.1 == k) then
    d.map (fun p => if p.1 == k then (k, v) else p)
  else d ++ [(k, v)]

/-- The secrets accumulated so far and the invalid-line warnings issued so
far. -/
structure EnvParseState where
  secrets : List (String × String)
  warnings : List String
deriving DecidableEq, Repr

/-- The body of the `for line_num, line in enumerate(f, 1)` loop. -/
def envStep (st : EnvParseState) (rawLine : String) : EnvParseState :=
  let line := pyStripChars rawLine.toList
  if line.isEmpty then st
  else if line.head? == some (Char.ofNat 35) then st
  else
    match splitFirstEq line with
    | some kv =>
      let key := pyStripChars kv.1
      let value := stripQuotes (pyStripChars kv.2)
      if key.isEmpty then st
      else { st with secrets := dictInsert st.secrets (String.mk key) (String.mk value) }
    | none => { st with warnings := st.warnings ++ [String.mk line] }

/-- Function `parse_env_file`: the `KEY=VALUE` mapping accumulated over all lines. -/
def parse_env_file (lines : List String) : List (String × String) :=
  (lines.foldl envStep ⟨[], []⟩).secrets

/-- The warnings printed by `parse_env_file` (line 50), one per skipped
invalid line. -/
def parseEnvWarnings (lines : List String) : List String :=
  (lines.foldl envStep ⟨[], []⟩).warnings

/-- C7: on the file `FOO=bar` / `# comment` / empty line / `BAZ="quoted"`,
`parse_env_file` returns exactly `{FOO: bar, BAZ: quoted}`: the comment
and the empty line produce no entries (and no warnings), and the matching
pair of surrounding double quotes is removed from the value. -/
theorem parse_env_file_example :
    parse_env_file ["FOO=bar", "# comment", "", "BAZ=\"quoted\""] =
      [("FOO", "bar"), ("BAZ", "quoted")] ∧
    parseEnvWarnings ["FOO=bar", "# comment", "", "BAZ=\"quoted\""] = [] := by
  constructor
  · decide
  · decide

lemma splitFirstEq_eq_none_of_not_mem {l : List Char} (h : '=' ∉ l) :
    splitFirstEq l = none := by
  induction l with
  | nil => rfl
  | cons c cs ih =>
    have hc : ¬(c == '=') = true := by
      simp only [beq_iff_eq]
      intro hx
      exact h (hx ▸ List.mem_cons_self c cs)
    have hcs : '=' ∉ cs := fun hx => h (List.mem_cons_of_mem c hx)
    simp only [splitFirstEq, if_neg hc, ih hcs]

lemma splitFirstEq_append {k : List Char} (v : List Char) (h : '=' ∉ k) :
    splitFirstEq (k ++ '=' :: v) = some (k, v) := by
  induction k with
  | nil => simp [splitFirstEq]
  | cons c cs ih =>
    have hc : ¬(c == '=') = true := by
      simp only [beq_iff_eq]
      intro hx
      exact h (hx ▸ List.mem_cons_self c cs)
    have hcs : '=' ∉ cs := fun hx => h (List.mem_cons_of_mem c hx)
    show splitFirstEq (c :: (cs ++ '=' :: v)) = some (c :: cs, v)
    simp only [splitFirstEq, if_neg hc, ih hcs]

/-- C10: the per-line behaviour of `parse_env_file`.  (1) A line with no `=`
(after stripping; non-empty, not a comment) is skipped with only a warning
recording the line — never an error, the secrets of the state are unchanged.
(2) A line of shape `<k>=<v>` splitting at the *first* `=` (so `v` may
itself contain `=`): both key and value are stripped of surrounding
whitespace, the value is unquoted, and the entry is dropped entirely when
the stripped key is empty. -/
theorem parse_env_line_behaviour :
    (∀ (st : EnvParseState) (l : String),
      pyStripChars l.toList ≠ [] →
      (pyStripChars l.toList).head? ≠ some (Char.ofNat 35) →
      '=' ∉ pyStripChars l.toList →
      envStep st l =
        { st with warnings := st.warnings ++ [String.mk (pyStripChars l.toList)] }) ∧
    (∀ (st : EnvParseState) (k v : List Char),
      '=' ∉ k →
      pyStripChars (k ++ '=' :: v) = k ++ '=' :: v →
      (k ++ '=' :: v).head? ≠ some (Char.ofNat 35) →
      envStep st (String.mk (k ++ '=' :: v)) =
        (if (pyStripChars k).isEmpty then st
         else { st with secrets := dictInsert st.secrets (String.mk (pyStripChars k)) (String.mk (stripQuotes (pyStripChars v))) })) := by
  constructor
  · intro st l hne hhash heq
    have hsplit : splitFirstEq (pyStripChars l.toList) = none :=
      splitFirstEq_eq_none_of_not_mem heq
    have hie : (pyStripChars l.toList).isEmpty = false := by
      cases hl : pyStripChars l.toList with
      | nil => exact absurd hl hne
      | cons a as => rfl
    have hhd : ((pyStripChars l.toList).head? == some (Char.ofNat 35)) = false := by
      simp only [beq_eq_false_iff_ne]
      exact hhash
    simp only [envStep, hie, Bool.false_eq_true, if_false, hhd, hsplit]
  · intro st k v hk hstrip hhash
    have htl : (String.mk (k ++ '=' :: v)).toList = k ++ '=' :: v := rfl
    have hne : (k ++ '=' :: v).isEmpty = false := by
      cases k with
      | nil => rfl
      | cons a as => rfl
    have hhd : ((k ++ '=' :: v).head? == some (Char.ofNat 35)) = false := by
      simp only [beq_eq_false_iff_ne]
      exact hhash
    have hsplit : splitFirstEq (k ++ '=' :: v) = some (k, v) := splitFirstEq_append v hk
    simp only [envStep, htl, hstrip, hne, Bool.false_eq_true, if_false, hhd, hsplit]

/-- Witness for C10: the invalid line `oops` is skipped with a warning,
and `DB = a=b` (key `DB `, value ` a=b` around the first `=`) is stored
trimmed as `DB ↦ a=b`, the value keeping its inner `=`. -/
theorem parse_env_line_behaviour_witness :
    envStep ⟨[], []⟩ "oops" =
      { EnvParseState.mk [] [] with
        warnings := [] ++ [String.mk (pyStripChars "oops".toList)] } ∧
    envStep ⟨[], []⟩ (String.mk ("DB ".toList ++ '=' :: " a=b".toList)) =
      (if (pyStripChars "DB ".toList).isEmpty then EnvParseState.mk [] []
       else { EnvParseState.mk [] [] with secrets := dictInsert [] (String.mk (pyStripChars "DB ".toList)) (String.mk (stripQuotes (pyStripChars " a=b".toList))) }) :=
  ⟨parse_env_line_behaviour.1 ⟨[], []⟩ "oops" (by decide) (by decide) (by decide),
   parse_env_line_behaviour.2 ⟨[], []⟩ "DB ".toList " a=b".toList
     (by decide) (by decide) (by decide)⟩

/-! ## Existence checks by substring (`scripts/deploy.py` lines 80-97) -/

/-- The Python substring containment `needle in haystack` on character
lists: some suffix of the haystack starts with the needle. -/
def containsSub (n : List Char) : List Char → Bool
  | [] => n.isEmpty
  | c :: cs => listStarts n (c :: cs) || containsSub n cs

/-- Python `needle in haystack` on strings. -/
def pyIn (needle haystack : String) : Bool :=
  containsSub needle.toList haystack.toList

/-- Function `app_exists` (lines 80-87): `flyctl apps list` output scanned with
`app_name in result.stdout`. -/
def app_exists (app_name : String) (appsList : CmdResult) : Bool :=
  if appsList.returncode = 0 then pyIn app_name appsList.stdout else false

/-- Function `cert_exists` (lines 90-97): `flyctl certs list --app app_name` output
scanned with `domain in result.stdout`. -/
def cert_exists (app_name domain : String) (certsList : CmdResult) : Bool :=
  if certsList.returncode = 0 then pyIn domain certsList.stdout else false

lemma listStarts_append_self : ∀ (n post : List Char), listStarts n (n ++ post) = true := by
  intro n
  induction n with
  | nil => intro post; rfl
  | cons a as ih =>
    intro post
    simp only [List.cons_append, listStarts, beq_self_eq_true, Bool.true_and]
    exact ih post

lemma containsSub_nil_left : ∀ h : List Char, containsSub [] h = true := by
  intro h
  cases h with
  | nil => rfl
  | cons c cs => rfl

lemma containsSub_append_self : ∀ (pre n post : List Char),
    containsSub n (pre ++ n ++ post) = true := by
  intro pre
  induction pre with
  | nil =>
    intro n post
    cases n with
    | nil => exact containsSub_nil_left post
    | cons a as =>
      show (listStarts (a :: as) ((a :: as) ++ post) ||
        containsSub (a :: as) (as ++ post)) = true
      rw [listStarts_append_self]
      simp
  | cons c cs ih =>
    intro n post
    show (listStarts n ((c :: cs) ++ n ++ post) || containsSub n (cs ++ n ++ post)) = true
    rw [ih n post]
    simp

/-- C8: `app_exists` and `cert_exists` decide existence by substring
containment on the listing output: any occurrence of the queried app name
(resp. domain) in the output — even as a proper prefix or infix of a
longer name — makes them return true; in particular, against a listing
containing only the app `shmuel-tech-foobar`, `app_exists` reports that
`shmuel-tech-foo` exists. -/
theorem app_cert_exists_substring :
    (∀ (app_name pre post errS : String),
      app_exists app_name ⟨0, pre ++ app_name ++ post, errS⟩ = true) ∧
    (∀ (app_name domain pre post errS : String),
      cert_exists app_name domain ⟨0, pre ++ domain ++ post, errS⟩ = true) ∧
    app_exists "shmuel-tech-foo" ⟨0, "shmuel-tech-foobar", ""⟩ = true := by
  have hin : ∀ (s pre post : String), pyIn s (pre ++ s ++ post) = true := by
    intro s pre post
    have hdata : (pre ++ s ++ post).toList = pre.toList ++ s.toList ++ post.toList := by
      simp [String.toList, String.data_append]
    simp only [pyIn, hdata]
    exact containsSub_append_self pre.toList s.toList post.toList
  refine ⟨?_, ?_, ?_⟩
  · intro app_name pre post errS
    simp only [app_exists, if_pos rfl]
    exact hin app_name pre post
  · intro app_name domain pre post errS
    simp only [cert_exists, if_pos rfl]
    exact hin domain pre post
  · decide

example : hostnamesFor "main-site" = ("@", "www") := by decide
example : hostnamesFor "blog" = ("blog", "www.blog") := by decide
example :
    prepare_dns_changes_for_services [⟨"blog", "shmuel-tech-blog"⟩] [] =
      ([⟨"blog", "CNAME", "shmuel-tech-blog.fly.dev.", "1800", "10"⟩,
        ⟨"www.blog", "CNAME", "shmuel-tech-blog.fly.dev.", "1800", "10"⟩], true) := by decide
